import Mathlib

/-!
# git-credential-manager client (`src/shared/gcm/git-credential-manager.c`)

A shallow embedding of the client program.  The process is modelled as a pure
function from its environment (`World`: user id, environment variables, account
database, results of the system calls, standard input) to a `Run`: the ordered
list of observable events together with the way the process ended.

Bytes are natural numbers; C strings are lists of bytes without their
terminator; buffers are lists of bytes; `errno` is passed explicitly.
-/

namespace GCM

/-! ## Bytes, C strings and buffers -/

/-- The bytes of a string literal of the source (a byte of a `char` array is
a natural number). -/
def bytes (s : String) : List Nat := s.toList.map Char.toNat

/-- The newline character. -/
def NL : Nat := 10

/-- The C string held by a buffer: the bytes before the first NUL. -/
def cstr (buf : List Nat) : List Nat := buf.takeWhile (fun c => c != 0)

/-- Storing `data` at the start of `buf`, the rest of the buffer unchanged. -/
def poke (buf data : List Nat) : List Nat := data ++ buf.drop data.length

/-- The effect of `memset(buf, 0, sizeof(buf))`. -/
def memset0 (buf : List Nat) : List Nat := List.replicate buf.length 0

/-! ## Platform constants (system headers, not part of the repository) -/

/-- Constants and libc choices the source takes from the system headers. -/
structure Platform where
  /-- Width in bits of `long` and `unsigned long`. -/
  longBits : Nat
  /-- Width in bits of the unsigned type `uid_t`. -/
  uidBits : Nat
  /-- The value of `ERANGE`. -/
  ERANGE : Nat
  /-- What `strtol` stores in `errno` when it converts nothing: `none` when it
  leaves `errno` alone (glibc), `some EINVAL` otherwise (BSD libc). -/
  noConvErrno : Option Nat
  /-- The value of `sizeof(addr.sun_path)`. -/
  sunPathSize : Nat

/-- Linux on a 64-bit machine with glibc. -/
def linux64 : Platform :=
  { longBits := 64, uidBits := 32, ERANGE := 34, noConvErrno := none, sunPathSize := 108 }

def LONG_MAX (P : Platform) : Int := 2 ^ (P.longBits - 1) - 1

def LONG_MIN (P : Platform) : Int := -(2 ^ (P.longBits - 1))

def ULONG_MAX (P : Platform) : Nat := 2 ^ P.longBits - 1

/-- Conversion of a `long` to `uid_t` (reduction modulo `2 ^ uidBits`). -/
def toUid (P : Platform) (v : Int) : Nat := (v % (2 ^ P.uidBits : Int)).toNat

/-- Conversion of a `uid_t` to `unsigned long`. -/
def toULong (P : Platform) (u : Nat) : Nat := u % 2 ^ P.longBits

/-! ## Observable behaviour -/

/-- A line written to standard error, as the `fprintf` call that writes it. -/
inductive Diag where
  /-- From `die_err`: `"fatal: %s (0x%x)\n"`. -/
  | fatal (msg : String) (err : Int)
  /-- From `die_errno`: `"fatal: %s (%s: 0x%x)\n"`. -/
  | fatalErrno (msg : String) (err : Nat)
  /-- From `usage`: `"usage: %s\n"`. -/
  | usage (cmdline : String)
  /-- The trace line `"connecting to %s\n"`. -/
  | connecting (sockpath : List Nat)
  /-- The trace line `"starting daemon"`. -/
  | startingDaemon
  deriving DecidableEq, Repr

/-- The observable actions of the process, in program order. -/
inductive Event where
  | stderr (d : Diag)
  /-- A call of `socket`. -/
  | socket
  /-- A call of `connect` and whether it succeeded. -/
  | connect (ok : Bool)
  /-- A call of `fork`. -/
  | fork
  | sleep (seconds : Nat)
  /-- A call of `send` with the bytes handed to it. -/
  | send (data : List Nat)
  /-- A call of `recv` and the value it returned. -/
  | recv (ret : Int)
  /-- Bytes written to standard output by `fputs`. -/
  | stdout (data : List Nat)
  | close
  deriving DecidableEq, Repr

/-- How the process ends. -/
inductive Outcome where
  /-- The process ends through `exit(code)` or `return code` from `main`. -/
  | exit (code : Int)
  /-- The program accessed an array outside its bounds: behaviour undefined. -/
  | undefined
  /-- The process image was replaced by `execl`. -/
  | exec
  deriving DecidableEq, Repr

/-- A run of the process. -/
structure Run where
  events : List Event
  outcome : Outcome
  deriving DecidableEq, Repr

/-- The run `r` preceded by the events `evs`. -/
def Run.after (evs : List Event) (r : Run) : Run :=
  { events := evs ++ r.events, outcome := r.outcome }

/-- The exit status a parent process observes for `exit(code)`. -/
def exitStatus (code : Int) : Int := code % 256

/-! ## The environment of a run -/

/-- The environment of one invocation. -/
structure World where
  /-- Result of `getuid()`. -/
  uid : Nat
  /-- Result of `getenv("SUDO_UID")`. -/
  sudoUid : Option (List Nat)
  /-- Result of `getenv("GCM_TRACE")`. -/
  gcmTrace : Option (List Nat)
  /-- Result of `getpwuid`: `none` for no record, `some none` for a record
  whose `pw_dir` is null, `some (some home)` otherwise. -/
  passwd : Nat → Option (Option (List Nat))
  /-- Whether `malloc` succeeds. -/
  mallocOk : Bool
  /-- Indeterminate initial contents of the local array `buf`. -/
  buf0 : List Nat
  /-- Result of `socket`: `none` on success, `some errno` on failure. -/
  socketErr : Option Nat
  /-- Result of the `k`-th call of `connect` (from 0): `none` on success. -/
  connectErr : Nat → Option Nat
  /-- Result of the `k`-th call of `send` (from 0): `none` on success. -/
  sendErr : Nat → Option Nat
  /-- Results of the successive calls of `recv`: the bytes one call receives
  (none for end of stream; a call stores at most `sizeof(buf)` of them) or the
  `errno` of a failure.  After the last entry the stream is at its end. -/
  recvs : List (Except Nat (List Nat))
  /-- The bytes of standard input. -/
  stdin : List Nat

/-! ## `die_err`, `die_errno`, `die`, `usage` -/

def die_err (msg : String) (err : Int) : Run :=
  { events := [Event.stderr (Diag.fatal msg err)], outcome := Outcome.exit err }

/-- The function `die_errno`, with the current value of `errno` as argument. -/
def die_errno (msg : String) (errno : Nat) : Run :=
  { events := [Event.stderr (Diag.fatalErrno msg errno)],
    outcome := Outcome.exit (errno : Int) }

def die (msg : String) : Run := die_err msg 1

def usage (cmdline : String) : Run :=
  { events := [Event.stderr (Diag.usage cmdline)], outcome := Outcome.exit 127 }

/-! ## libc: `strtol` in base 10 -/

def isspace (c : Nat) : Bool := c == 32 || (9 ≤ c && c ≤ 13)

def isdigit (c : Nat) : Bool := 48 ≤ c && c ≤ 57

/-- The value of a run of decimal digits. -/
def digitsValue (ds : List Nat) : Nat := ds.foldl (fun a d => a * 10 + (d - 48)) 0

/-- What `strtol(s, &end, 10)` yields. -/
structure StrtolResult where
  value : Int
  /-- The difference `end - s`. -/
  consumed : Nat
  /-- The value stored in `errno`, if any. -/
  errnoSet : Option Nat
  deriving DecidableEq, Repr

/-- The conversion of the digits `ds` found after `skipped` bytes of white
space and sign: no digits means no conversion (`end == s`); a value outside
`long` is clamped and sets `errno` to `ERANGE`. -/
def strtolDigits (P : Platform) (skipped : Nat) (neg : Bool) (ds : List Nat) : StrtolResult :=
  if ds.isEmpty then
    { value := 0, consumed := 0, errnoSet := P.noConvErrno }
  else
    let v : Int := if neg then -(digitsValue ds : Int) else (digitsValue ds : Int)
    if LONG_MAX P < v then
      { value := LONG_MAX P, consumed := skipped + ds.length, errnoSet := some P.ERANGE }
    else if v < LONG_MIN P then
      { value := LONG_MIN P, consumed := skipped + ds.length, errnoSet := some P.ERANGE }
    else
      { value := v, consumed := skipped + ds.length, errnoSet := none }

/-- The optional sign and the longest run of digits, after `skipped` bytes of
white space. -/
def strtolSigned (P : Platform) (skipped : Nat) : List Nat → StrtolResult
  | 45 :: t => strtolDigits P (skipped + 1) true (t.takeWhile isdigit)
  | 43 :: t => strtolDigits P (skipped + 1) false (t.takeWhile isdigit)
  | t => strtolDigits P skipped false (t.takeWhile isdigit)

/-- ISO C `strtol` with base 10: optional white space, an optional sign, then
the longest run of digits. -/
def strtol (P : Platform) (s : List Nat) : StrtolResult :=
  strtolSigned P (s.takeWhile isspace).length (s.dropWhile isspace)

/-! ## `gcm_ruid` and `gcm_sockpath` -/

/-- The function `gcm_ruid`: the user identifier, or the run of the fatal exit. -/
def gcm_ruid (P : Platform) (W : World) : Except Run Nat :=
  if W.uid = 0 then
    match W.sudoUid with
    | none => .error (die "was unable to read SUDO_UID and cannot run directly as root")
    | some sudo_uid =>
      -- errno = 0; uid = strtol(sudo_uid, &end, 10);
      let r := strtol P sudo_uid
      let errno : Nat := r.errnoSet.getD 0
      let uid := toUid P r.value
      if r.consumed = 0 ∨ toULong P uid = ULONG_MAX P ∨ errno = P.ERANGE then
        .error (die_errno "was unable to parse SUDO_UID as an integer" errno)
      else
        .ok uid
  else
    .ok W.uid

def GCM_DIRNAME : List Nat := bytes ".gcm"

def GCM_PIPENAME : List Nat := bytes ".pipe"

/-- The function `gcm_sockpath`: the socket path, or the run of the fatal exit. -/
def gcm_sockpath (W : World) (uid : Nat) : Except Run (List Nat) :=
  match W.passwd uid with
  | none => .error (die "unable to get user information")
  | some none => .error (die "unable to get user home directory")
  | some (some homedir) =>
    if W.mallocOk then
      -- sprintf(sockpath, "%s/%s/%s", homedir, GCM_DIRNAME, GCM_PIPENAME)
      .ok (cstr homedir ++ bytes "/" ++ GCM_DIRNAME ++ bytes "/" ++ GCM_PIPENAME)
    else
      .error (die "unable to allocate memory")

/-! ## libc: `fgets` -/

/-- The value of `sizeof(buf)` in `main`. -/
def BUF_SIZE : Nat := 1024

/-- Reading at most `n` bytes from the input, stopping after a newline: the
bytes read and the input that remains. -/
def readLine : Nat → List Nat → List Nat × List Nat
  | 0, s => ([], s)
  | _ + 1, [] => ([], [])
  | n + 1, c :: s =>
    if c = NL then ([c], s) else (c :: (readLine n s).1, (readLine n s).2)

/-- The call `fgets(buf, size, stdin)`: `none` for a null result (end of input
with nothing read), otherwise the bytes stored before the terminator and the
input that remains. -/
def fgets (size : Nat) (stdin : List Nat) : Option (List Nat × List Nat) :=
  if stdin.isEmpty then none else some (readLine (size - 1) stdin)

/-! ## `main` -/

/-- The loop `while (fgets(buf, sizeof(buf), stdin))` of `main`.  `k` counts the
calls of `send` made so far, `cont` is the rest of `main` after the loop, given
the buffer.  The first argument bounds the number of iterations; `main` passes
a bound the loop cannot reach. -/
def streamLoop (W : World) (cont : List Nat → Run) :
    Nat → Nat → List Nat → List Nat → Run
  | 0, _, buf, _ => cont buf
  | fuel + 1, k, buf, stdin =>
    match fgets BUF_SIZE stdin with
    | none => cont buf
    | some (line, rest) =>
      let buf1 := poke buf (line ++ [0])
      -- send(fd, buf, strlen(buf), 0)
      Run.after [Event.send (cstr buf1)] <|
        match W.sendErr k with
        | some errno => die_errno "send" errno
        | none =>
          if cstr buf1 = bytes "\n" then cont buf1
          else streamLoop W cont fuel (k + 1) buf1 rest

/-- The loop `while (recv(fd, buf, sizeof(buf), 0) > 0) fputs(buf, stdout)` of
`main`, over the results of the calls of `recv` still to come.  `cont` is the
rest of `main` after the loop. -/
def drainLoop (cont : Run) : List (Except Nat (List Nat)) → List Nat → Run
  | [], _ => Run.after [Event.recv 0] cont
  | Except.error _ :: _, _ => Run.after [Event.recv (-1)] cont
  | Except.ok data :: rs, buf =>
    -- recv stores at most sizeof(buf) bytes
    let chunk := data.take BUF_SIZE
    if chunk.isEmpty then Run.after [Event.recv 0] cont
    else
      let buf1 := poke buf chunk
      -- fputs(buf, stdout) writes the bytes before the first NUL
      if buf1.contains 0 then
        Run.after [Event.recv chunk.length, Event.stdout (cstr buf1)] (drainLoop cont rs buf1)
      else
        { events := [Event.recv chunk.length], outcome := Outcome.undefined }

/-- The code the child process runs after `fork` returned 0 there:
`execl(GCM_DAEMONPATH, GCM_DAEMONNAME, NULL); die_errno("execlp");`, with the
result of `execl` (`none` when the image is replaced). -/
def forkChild (execErr : Option Nat) : Run :=
  match execErr with
  | none => { events := [], outcome := Outcome.exec }
  | some errno => die_errno "execlp" errno

/-- The local array `char buf[1024]` of `main` before anything is stored in
it: `BUF_SIZE` bytes of indeterminate contents. -/
def bufInit (W : World) : List Nat :=
  (W.buf0 ++ List.replicate BUF_SIZE 0).take BUF_SIZE

/-- The part of `main` that follows the connection (from `// send primary
argument first` to `return 0`), with `verb` the argument `argv[1]`. -/
def exchange (W : World) (verb : List Nat) : Run :=
  -- snprintf(buf, sizeof(buf), "%s\n", argv[1]) stores at most sizeof(buf) - 1
  -- bytes and a terminator
  let buf1 := poke (bufInit W) ((cstr verb ++ bytes "\n").take (BUF_SIZE - 1) ++ [0])
  -- send(fd, buf, strlen(buf), 0)
  Run.after [Event.send (cstr buf1)] <|
  match W.sendErr 0 with
  | some errno => die_errno "send" errno
  | none =>
  streamLoop W
    (fun buf =>
      drainLoop { events := [Event.close], outcome := Outcome.exit 0 } W.recvs (memset0 buf))
    (W.stdin.length + 1) 1 (memset0 buf1) W.stdin

/-- The function `main`, for the invoked process (in which `fork` returns a
non-zero value); `argv` holds the `argc` arguments, the program name first. -/
def main (P : Platform) (W : World) (argv : List (List Nat)) : Run :=
  -- int trace = trace_str && !strcmp(trace_str, "1");
  let trace : Bool := W.gcmTrace.map cstr == some (bytes "1")
  match gcm_ruid P W with
  | .error r => r
  | .ok uid =>
  match gcm_sockpath W uid with
  | .error r => r
  | .ok sockpath =>
  match argv with
  | [] => usage "client <command>"
  | [_] => usage "client <command>"
  | _ :: verb :: _ =>
  Run.after (if trace then [Event.stderr (Diag.connecting sockpath)] else []) <|
  Run.after [Event.socket] <|
  match W.socketErr with
  | some errno => die_errno "socket" errno
  | none =>
  -- strcpy(addr.sun_path, sockpath) stores sockpath and its terminator
  if P.sunPathSize < sockpath.length + 1 then
    { events := [], outcome := Outcome.undefined }
  else
  Run.after [Event.connect (W.connectErr 0).isNone] <|
  match W.connectErr 0 with
  | none => exchange W verb
  | some _ =>
    Run.after (if trace then [Event.stderr Diag.startingDaemon] else []) <|
    Run.after [Event.fork, Event.sleep 1, Event.connect (W.connectErr 1).isNone] <|
    match W.connectErr 1 with
    | some errno => die_errno "connect" errno
    | none => exchange W verb

/-! ## Observations on a run -/

/-- The bytes an event hands to `send`. -/
def Event.sendData : Event → Option (List Nat)
  | Event.send d => some d
  | _ => none

/-- The bytes an event writes to standard output. -/
def Event.stdoutData : Event → Option (List Nat)
  | Event.stdout d => some d
  | _ => none

/-- The messages handed to `send`, in order. -/
def sends (r : Run) : List (List Nat) := r.events.filterMap Event.sendData

/-- The bytes sent after the first message (the verb line). -/
def streamed (r : Run) : List Nat := (sends r).tail.flatten

/-- The bytes written to standard output. -/
def stdoutOf (r : Run) : List Nat := (r.events.filterMap Event.stdoutData).flatten

def Event.isConnect : Event → Bool
  | Event.connect _ => true
  | _ => false

def Event.isFork : Event → Bool
  | Event.fork => true
  | _ => false

/-- A call of `send` or `recv`. -/
def Event.isTransfer : Event → Bool
  | Event.send _ => true
  | Event.recv _ => true
  | _ => false

/-- A call of `connect`, `fork`, `send` or `recv`. -/
def Event.isNetOp (e : Event) : Bool := e.isConnect || e.isFork || e.isTransfer

/-- A fatal diagnostic (written by `die_err` or `die_errno`). -/
def Event.isFatal : Event → Bool
  | Event.stderr (Diag.fatal _ _) => true
  | Event.stderr (Diag.fatalErrno _ _) => true
  | _ => false

/-! ## The request as the specification describes it -/

/-- The lines of a byte stream, each with its newline; the last one may lack it. -/
def splitLines : List Nat → List (List Nat)
  | [] => []
  | c :: s =>
    if c = NL then [c] :: splitLines s
    else
      match splitLines s with
      | [] => [[c]]
      | l :: ls => (c :: l) :: ls

/-- The lines up to and including the first empty line (a line that is exactly
one newline); all of them when there is none. -/
def uptoEmptyLine : List (List Nat) → List (List Nat)
  | [] => []
  | l :: ls => if l = [NL] then [l] else l :: uptoEmptyLine ls

/-- The input up to and including its first empty line. -/
def requestOf (input : List Nat) : List Nat := (uptoEmptyLine (splitLines input)).flatten

/-- A world in which every call succeeds: user 1000 with home `/home/u`, the
daemon listening and closing the stream at once, nothing on standard input. -/
def quietWorld : World :=
  { uid := 1000, sudoUid := none, gcmTrace := none,
    passwd := fun u => if u = 1000 then some (some (bytes "/home/u")) else none,
    mallocOk := true, buf0 := [], socketErr := none,
    connectErr := fun _ => none, sendErr := fun _ => none,
    recvs := [], stdin := [] }

/-- The decimal representation of a natural number, without leading zeros. -/
def decimal (n : Nat) : List Nat :=
  if n = 0 then [48] else (Nat.digits 10 n).reverse.map (fun d => d + 48)

deriving instance DecidableEq for Except

/-! ## Basic facts on runs, strings and buffers -/

set_option maxRecDepth 20000

@[simp] theorem Run.after_events (evs : List Event) (r : Run) :
    (Run.after evs r).events = evs ++ r.events := rfl

@[simp] theorem Run.after_outcome (evs : List Event) (r : Run) :
    (Run.after evs r).outcome = r.outcome := rfl

theorem Run.after_after (a b : List Event) (r : Run) :
    Run.after a (Run.after b r) = Run.after (a ++ b) r := by
  simp [Run.after]

theorem die_errno_events (msg : String) (errno : Nat) :
    (die_errno msg errno).events = [Event.stderr (Diag.fatalErrno msg errno)] := rfl

theorem die_errno_outcome (msg : String) (errno : Nat) :
    (die_errno msg errno).outcome = Outcome.exit (errno : Int) := rfl

theorem usage_events (c : String) : (usage c).events = [Event.stderr (Diag.usage c)] := rfl

theorem bytes_nl : bytes "\n" = [NL] := by decide

theorem cstr_append_nul (s rest : List Nat) (h : ∀ c ∈ s, c ≠ 0) :
    cstr (s ++ 0 :: rest) = s := by
  induction s with
  | nil => simp [cstr]
  | cons c s ih =>
    have hc : c ≠ 0 := h c (List.mem_cons_self c s)
    have hs : ∀ d ∈ s, d ≠ 0 := fun d hd => h d (List.mem_cons_of_mem c hd)
    have hb : (c != 0) = true := by simpa using hc
    have ih2 := ih hs
    simp only [cstr] at ih2 ⊢
    rw [List.cons_append, List.takeWhile_cons, hb]
    simp [ih2]

theorem cstr_eq_self (s : List Nat) (h : ∀ c ∈ s, c ≠ 0) : cstr s = s := by
  unfold cstr
  rw [List.takeWhile_eq_self_iff]
  intro c hc
  simpa using h c hc

theorem cstr_no_nul (s : List Nat) : ∀ c ∈ cstr s, c ≠ 0 := by
  intro c hc
  have h := List.mem_takeWhile_imp hc
  simpa using h

theorem poke_terminated (buf s : List Nat) :
    poke buf (s ++ [0]) = s ++ 0 :: buf.drop (s.length + 1) := by
  simp [poke]

/-- A terminated string stored in a buffer is the C string the buffer holds. -/
theorem cstr_poke (buf s : List Nat) (h : ∀ c ∈ s, c ≠ 0) :
    cstr (poke buf (s ++ [0])) = s := by
  rw [poke_terminated, cstr_append_nul s _ h]

theorem bufInit_length (W : World) : (bufInit W).length = BUF_SIZE := by
  simp [bufInit]

theorem takeWhile_append_stop (p : Nat → Bool) (a b : List Nat)
    (ha : ∀ c ∈ a, p c = true) (hb : ∀ c, b.head? = some c → p c = false) :
    (a ++ b).takeWhile p = a ∧ (a ++ b).dropWhile p = b := by
  induction a with
  | nil =>
    cases b with
    | nil => simp
    | cons c b =>
      have := hb c rfl
      simp [List.takeWhile_cons, List.dropWhile_cons, this]
  | cons c a ih =>
    have hc := ha c (List.mem_cons_self c a)
    have ih2 := ih (fun d hd => ha d (List.mem_cons_of_mem c hd))
    simp [List.takeWhile_cons, List.dropWhile_cons, hc, ih2.1, ih2.2]

/-! ## The events of the loops and of the exchange -/

/-- Every event of the receive loop is a `recv`, a write to standard output, or
an event of the code after the loop. -/
theorem drainLoop_events (Q : Event → Prop) (hrecv : ∀ n, Q (Event.recv n))
    (hout : ∀ d, Q (Event.stdout d)) (cont : Run) (hc : ∀ e ∈ cont.events, Q e) :
    ∀ (rs : List (Except Nat (List Nat))) (buf : List Nat),
      ∀ e ∈ (drainLoop cont rs buf).events, Q e := by
  intro rs
  induction rs with
  | nil =>
    intro buf e he
    simp only [drainLoop, Run.after_events, List.mem_append, List.mem_singleton] at he
    rcases he with he | he
    · subst he; exact hrecv 0
    · exact hc e he
  | cons r rs ih =>
    intro buf e he
    cases r with
    | error n =>
      simp only [drainLoop, Run.after_events, List.mem_append, List.mem_singleton] at he
      rcases he with he | he
      · subst he; exact hrecv _
      · exact hc e he
    | ok data =>
      simp only [drainLoop] at he
      split at he
      · simp only [Run.after_events, List.mem_append, List.mem_singleton] at he
        rcases he with he | he
        · subst he; exact hrecv _
        · exact hc e he
      · split at he
        · simp only [Run.after_events, List.mem_append, List.mem_cons, List.mem_singleton,
            List.not_mem_nil, or_false] at he
          rcases he with (he | he) | he
          · subst he; exact hrecv _
          · subst he; exact hout _
          · exact ih _ e he
        · simp only [List.mem_singleton] at he
          subst he; exact hrecv _

/-- Every event of the forwarding loop is a `send`, a diagnostic, or an event
of the code after the loop. -/
theorem streamLoop_events (W : World) (Q : Event → Prop) (hsend : ∀ d, Q (Event.send d))
    (hdiag : ∀ d, Q (Event.stderr d)) (cont : List Nat → Run)
    (hc : ∀ buf, ∀ e ∈ (cont buf).events, Q e) :
    ∀ (fuel k : Nat) (buf stdin : List Nat),
      ∀ e ∈ (streamLoop W cont fuel k buf stdin).events, Q e := by
  intro fuel
  induction fuel with
  | zero =>
    intro k buf stdin e he
    exact hc buf e he
  | succ fuel ih =>
    intro k buf stdin e he
    simp only [streamLoop] at he
    split at he
    · exact hc buf e he
    · simp only [Run.after_events, List.mem_append, List.mem_singleton] at he
      rcases he with he | he
      · subst he; exact hsend _
      · split at he
        · simp only [die_errno_events, List.mem_singleton] at he
          subst he; exact hdiag _
        · split at he
          · exact hc _ e he
          · exact ih _ _ _ e he

/-- Every event of the exchange is a `send`, a `recv`, a write to standard
output, a diagnostic, or the final `close`. -/
theorem exchange_events (W : World) (verb : List Nat) (Q : Event → Prop)
    (hsend : ∀ d, Q (Event.send d)) (hrecv : ∀ n, Q (Event.recv n))
    (hout : ∀ d, Q (Event.stdout d)) (hdiag : ∀ d, Q (Event.stderr d)) (hclose : Q Event.close) :
    ∀ e ∈ (exchange W verb).events, Q e := by
  intro e he
  simp only [exchange, Run.after_events, List.mem_append, List.mem_singleton] at he
  rcases he with he | he
  · subst he; exact hsend _
  · split at he
    · simp only [die_errno_events, List.mem_singleton] at he
      subst he; exact hdiag _
    · refine streamLoop_events W Q hsend hdiag _ ?_ _ _ _ _ e he
      intro buf e he
      refine drainLoop_events Q hrecv hout _ ?_ _ _ e he
      intro e he
      simp only [List.mem_singleton] at he
      subst he; exact hclose

theorem sends_after (evs : List Event) (r : Run) :
    sends (Run.after evs r) =
      evs.filterMap Event.sendData ++ sends r := by
  simp [sends, Run.after, List.filterMap_append]

/-- The messages sent are determined by the network calls. -/
theorem sends_netOps (l : List Event) :
    l.filterMap Event.sendData = (l.filter Event.isNetOp).filterMap Event.sendData := by
  induction l with
  | nil => rfl
  | cons e l ih =>
    cases e <;> simp [List.filter_cons, Event.isNetOp, Event.isConnect, Event.isFork,
      Event.isTransfer, Event.sendData, ih]

/-- Nothing is sent during or after the receive loop. -/
theorem sends_drainLoop (rs : List (Except Nat (List Nat))) (buf : List Nat) :
    sends (drainLoop { events := [Event.close], outcome := Outcome.exit 0 } rs buf) = [] := by
  unfold sends
  rw [List.filterMap_eq_nil_iff]
  refine drainLoop_events (fun e => e.sendData = none) (fun _ => rfl) (fun _ => rfl) _ ?_ rs buf
  intro e he
  simp only [List.mem_singleton] at he
  subst he; rfl

/-- The first message of the exchange is the string `snprintf` stored. -/
theorem exchange_sends_head (W : World) (verb : List Nat) :
    (sends (exchange W verb)).head? =
      some ((cstr verb ++ bytes "\n").take (BUF_SIZE - 1)) := by
  have hn : ∀ c ∈ (cstr verb ++ bytes "\n").take (BUF_SIZE - 1), c ≠ 0 := by
    intro c hc
    have hc2 := List.mem_of_mem_take hc
    rw [List.mem_append] at hc2
    rcases hc2 with h | h
    · exact cstr_no_nul verb c h
    · rw [bytes_nl] at h
      simp only [List.mem_singleton] at h
      subst h; decide
  unfold exchange
  simp only [sends_after, List.filterMap_cons, List.filterMap_nil, List.singleton_append,
    List.head?_cons, cstr_poke _ _ hn, Event.sendData]

/-! ## The runs of `main` -/

/-- A failure of `gcm_ruid` is a fatal exit: one fatal diagnostic, then `exit`. -/
theorem gcm_ruid_error_events (P : Platform) (W : World) (r : Run)
    (h : gcm_ruid P W = Except.error r) :
    ∃ d code, r = { events := [Event.stderr d], outcome := Outcome.exit code } ∧
      (Event.stderr d).isFatal = true := by
  unfold gcm_ruid at h
  split at h
  · split at h
    · cases h; exact ⟨_, _, rfl, rfl⟩
    · dsimp only at h
      split at h
      · cases h; exact ⟨_, _, rfl, rfl⟩
      · cases h
  · cases h

/-- A failure of `gcm_sockpath` is a fatal exit. -/
theorem gcm_sockpath_error_events (W : World) (uid : Nat) (r : Run)
    (h : gcm_sockpath W uid = Except.error r) :
    ∃ d code, r = { events := [Event.stderr d], outcome := Outcome.exit code } ∧
      (Event.stderr d).isFatal = true := by
  unfold gcm_sockpath at h
  split at h
  · cases h; exact ⟨_, _, rfl, rfl⟩
  · cases h; exact ⟨_, _, rfl, rfl⟩
  · split at h
    · cases h
    · cases h; exact ⟨_, _, rfl, rfl⟩

theorem filter_netOp_trace (b : Bool) (d : Diag) :
    List.filter Event.isNetOp (if b = true then [Event.stderr d] else []) = [] := by
  cases b <;> rfl

/-- The three ways a run of `main` can go: it ends before any `connect`; it
connects, at the first or the second attempt, and runs the exchange; or both
attempts fail. -/
theorem main_cases (P : Platform) (W : World) (argv : List (List Nat)) :
    ((main P W argv).events.filter Event.isNetOp = [] ∧
      ∀ e ∈ (main P W argv).events, e ≠ Event.close) ∨
    (∃ pre prog verb rest, argv = prog :: verb :: rest ∧
      main P W argv = Run.after pre (exchange W verb) ∧
      (pre.filter Event.isNetOp = [Event.connect true] ∨
        (pre.filter Event.isNetOp = [Event.connect false, Event.fork, Event.connect true] ∧
          W.connectErr 1 = none))) ∨
    (∃ pre errno, W.connectErr 1 = some errno ∧
      main P W argv = Run.after pre (die_errno "connect" errno) ∧
      pre.filter Event.isNetOp = [Event.connect false, Event.fork, Event.connect false]) := by
  cases h1 : gcm_ruid P W with
  | error r =>
    left
    obtain ⟨d, code, rfl, _⟩ := gcm_ruid_error_events P W r h1
    simp [main, h1, Event.isNetOp, Event.isConnect, Event.isFork, Event.isTransfer]
  | ok uid =>
    cases h2 : gcm_sockpath W uid with
    | error r =>
      left
      obtain ⟨d, code, rfl, _⟩ := gcm_sockpath_error_events W _ r h2
      simp [main, h1, h2, Event.isNetOp, Event.isConnect, Event.isFork, Event.isTransfer]
    | ok sockpath =>
      match argv with
      | [] =>
        left
        simp [main, h1, h2, usage_events, Event.isNetOp, Event.isConnect, Event.isFork,
          Event.isTransfer]
      | [_] =>
        left
        simp [main, h1, h2, usage_events, Event.isNetOp, Event.isConnect, Event.isFork,
          Event.isTransfer]
      | prog :: verb :: rest =>
        cases h3 : W.socketErr with
        | some errno =>
          left
          cases htr : (Option.map cstr W.gcmTrace == some (bytes "1")) <;>
          simp [main, h1, h2, h3, htr, die_errno_events, Event.isNetOp,
            Event.isConnect, Event.isFork, Event.isTransfer]
        | none =>
          by_cases h4 : P.sunPathSize < sockpath.length + 1
          · left
            cases htr : (Option.map cstr W.gcmTrace == some (bytes "1")) <;>
            simp [main, h1, h2, h3, h4, htr, Event.isNetOp,
              Event.isConnect, Event.isFork, Event.isTransfer]
          · cases h5 : W.connectErr 0 with
            | none =>
              right; left
              refine ⟨(if (Option.map cstr W.gcmTrace == some (bytes "1")) = true
                  then [Event.stderr (Diag.connecting sockpath)] else []) ++
                  [Event.socket, Event.connect true], prog, verb, rest, rfl, ?_, ?_⟩
              · simp [main, h1, h2, h3, h4, h5, Run.after]
              · left
                simp only [List.filter_append, filter_netOp_trace, List.nil_append, List.append_nil]
                rfl
            | some e0 =>
              cases h6 : W.connectErr 1 with
              | some e1 =>
                right; right
                refine ⟨(if (Option.map cstr W.gcmTrace == some (bytes "1")) = true
                    then [Event.stderr (Diag.connecting sockpath)] else []) ++
                    [Event.socket, Event.connect false] ++
                    (if (Option.map cstr W.gcmTrace == some (bytes "1")) = true
                    then [Event.stderr Diag.startingDaemon] else []) ++
                    [Event.fork, Event.sleep 1, Event.connect false], e1, rfl, ?_, ?_⟩
                · simp [main, h1, h2, h3, h4, h5, h6, Run.after]
                · simp only [List.filter_append, filter_netOp_trace, List.nil_append,
                    List.append_nil]
                  rfl
              | none =>
                right; left
                refine ⟨(if (Option.map cstr W.gcmTrace == some (bytes "1")) = true
                    then [Event.stderr (Diag.connecting sockpath)] else []) ++
                    [Event.socket, Event.connect false] ++
                    (if (Option.map cstr W.gcmTrace == some (bytes "1")) = true
                    then [Event.stderr Diag.startingDaemon] else []) ++
                    [Event.fork, Event.sleep 1, Event.connect true], prog, verb, rest, rfl, ?_, ?_⟩
                · simp [main, h1, h2, h3, h4, h5, h6, Run.after]
                · right
                  simp only [List.filter_append, filter_netOp_trace, List.nil_append,
                    List.append_nil]
                  exact ⟨rfl, trivial⟩

/-- The run of `main` when identity and path resolve, the path fits and the
first `connect` succeeds. -/
theorem main_connected (P : Platform) (W : World) (prog verb : List Nat)
    (rest : List (List Nat)) (uid : Nat) (sockpath : List Nat)
    (h1 : gcm_ruid P W = Except.ok uid) (h2 : gcm_sockpath W uid = Except.ok sockpath)
    (h3 : W.socketErr = none) (h4 : sockpath.length + 1 ≤ P.sunPathSize)
    (h5 : W.connectErr 0 = none) :
    main P W (prog :: verb :: rest) =
      Run.after ((if (Option.map cstr W.gcmTrace == some (bytes "1")) = true
          then [Event.stderr (Diag.connecting sockpath)] else []) ++
          [Event.socket, Event.connect true]) (exchange W verb) := by
  have h4n : ¬ P.sunPathSize < sockpath.length + 1 := by omega
  simp [main, h1, h2, h3, h4n, h5, Run.after]

/-- Once connected, the messages `main` sends are those of the exchange. -/
theorem sends_main_of_connected (P : Platform) (W : World) (argv : List (List Nat))
    (prog verb : List Nat) (rest : List (List Nat)) (hargv : argv = prog :: verb :: rest)
    (hconn : Event.connect true ∈ (main P W argv).events) :
    sends (main P W argv) = sends (exchange W verb) := by
  rcases main_cases P W argv with ⟨h, _⟩ | ⟨pre, prog1, verb1, rest1, hargv1, hm, hpre⟩ |
      ⟨pre, errno, _, hm, hpre⟩
  · exfalso
    have : Event.connect true ∈ (main P W argv).events.filter Event.isNetOp :=
      List.mem_filter.mpr ⟨hconn, rfl⟩
    rw [h] at this
    simp at this
  · rw [hargv] at hargv1
    injection hargv1 with _ ht
    injection ht with hv _
    subst hv
    have hs : pre.filterMap Event.sendData = [] := by
      rw [sends_netOps]
      rcases hpre with hpre | ⟨hpre, _⟩ <;> rw [hpre] <;> rfl
    rw [hm, sends_after, hs, List.nil_append]
  · exfalso
    have : Event.connect true ∈ (main P W argv).events.filter Event.isNetOp :=
      List.mem_filter.mpr ⟨hconn, rfl⟩
    rw [hm, Run.after_events, List.filter_append, hpre, die_errno_events] at this
    simp [Event.isNetOp, Event.isConnect, Event.isFork, Event.isTransfer] at this

/-! ## C1: the forwarding phase -/

theorem readLine_nil (n : Nat) : readLine n [] = ([], []) := by
  cases n <;> rfl

/-- A block of `n` bytes without newline fills the buffer: `readLine` stops
after it. -/
theorem readLine_block (a rest : List Nat) (ha : ∀ c ∈ a, c ≠ NL) :
    readLine a.length (a ++ rest) = (a, rest) := by
  induction a with
  | nil => rfl
  | cons c a ih =>
    have hc : c ≠ NL := ha c (List.mem_cons_self c a)
    have ih2 := ih (fun d hd => ha d (List.mem_cons_of_mem c hd))
    rw [List.length_cons, List.cons_append, readLine, if_neg hc, ih2]

theorem splitLines_ne_nil (c : Nat) (s : List Nat) : splitLines (c :: s) ≠ [] := by
  unfold splitLines
  split
  · simp
  · split <;> simp

theorem splitLines_nil_iff (s : List Nat) : splitLines s = [] ↔ s = [] := by
  constructor
  · intro h
    cases s with
    | nil => rfl
    | cons c s => exact absurd h (splitLines_ne_nil c s)
  · intro h; subst h; rfl

/-- The first line of an input: the bytes up to and including the first
newline. -/
theorem splitLines_line (a rest : List Nat) (hnl : ∀ c ∈ a, c ≠ NL) :
    splitLines (a ++ NL :: rest) = (a ++ [NL]) :: splitLines rest := by
  induction a with
  | nil => simp [splitLines]
  | cons c a ih =>
    have hc : c ≠ NL := hnl c (List.mem_cons_self c a)
    have ih2 := ih (fun d hd => hnl d (List.mem_cons_of_mem c hd))
    rw [List.cons_append, splitLines, if_neg hc, ih2]
    rfl

/-- The first line of an input is what `readLine` reads when the line fits. -/
theorem readLine_splitLines (s : List Nat) :
    ∀ (n : Nat) (l : List Nat) (ls : List (List Nat)), splitLines s = l :: ls → l.length ≤ n →
      readLine n s = (l, s.drop l.length) ∧ splitLines (s.drop l.length) = ls ∧
        l = s.take l.length ∧ l ≠ [] := by
  induction s with
  | nil => intro n l ls h; simp [splitLines] at h
  | cons c s ih =>
    intro n l ls h hlen
    unfold splitLines at h
    by_cases hc : c = NL
    · rw [if_pos hc] at h
      injection h with h1 h2
      subst h1
      cases n with
      | zero => simp at hlen
      | succ n => simp [readLine, hc, h2]
    · rw [if_neg hc] at h
      cases hsp : splitLines s with
      | nil =>
        rw [hsp] at h
        injection h with h1 h2
        subst h1
        have hs : s = [] := (splitLines_nil_iff s).mp hsp
        subst hs
        cases n with
        | zero => simp at hlen
        | succ n => simp [readLine, hc, readLine_nil, ← h2, splitLines]
      | cons l1 ls1 =>
        rw [hsp] at h
        injection h with h1 h2
        subst h1
        cases n with
        | zero => simp at hlen
        | succ n =>
          have hlen1 : l1.length ≤ n := by
            simp only [List.length_cons] at hlen; omega
          obtain ⟨hr, hrest, htake, _⟩ := ih n l1 ls1 hsp hlen1
          refine ⟨?_, ?_, ?_, by simp⟩
          · rw [readLine, if_neg hc, hr]; rfl
          · rw [List.length_cons, List.drop_succ_cons, hrest, h2]
          · rw [List.length_cons, List.take_succ_cons, ← htake]

/-- One iteration of the forwarding loop when `fgets` reads `line` and the
`send` succeeds. -/
theorem streamLoop_step (W : World) (cont : List Nat → Run) (fuel k : Nat)
    (buf stdin line rest : List Nat) (hf : fgets BUF_SIZE stdin = some (line, rest))
    (hnul : ∀ c ∈ line, c ≠ 0) (hs : W.sendErr k = none) :
    streamLoop W cont (fuel + 1) k buf stdin =
      Run.after [Event.send line]
        (if line = [NL] then cont (poke buf (line ++ [0]))
         else streamLoop W cont fuel (k + 1) (poke buf (line ++ [0])) rest) := by
  simp only [streamLoop, hf, hs, cstr_poke buf line hnul, bytes_nl]

theorem streamLoop_eof (W : World) (cont : List Nat → Run) (fuel k : Nat) (buf : List Nat) :
    streamLoop W cont fuel k buf [] = cont buf := by
  cases fuel <;> rfl

/-- A call of `readLine` with room for at least one byte consumes input. -/
theorem readLine_rest_length (n : Nat) (s : List Nat) (hs : s ≠ []) :
    (readLine (n + 1) s).2.length < s.length := by
  induction s generalizing n with
  | nil => exact absurd rfl hs
  | cons c s ih =>
    rw [readLine]
    split
    · simp
    · cases n with
      | zero => simp [readLine]
      | succ n =>
        cases s with
        | nil => simp [readLine]
        | cons d s =>
          have := ih n (by simp)
          simp only [List.length_cons] at this ⊢
          omega

/-- The bound on the iterations of the forwarding loop is never reached: every
bound above the length of the input gives the same run. -/
theorem streamLoop_fuel (W : World) (cont : List Nat → Run) :
    ∀ (f1 f2 k : Nat) (buf stdin : List Nat), stdin.length < f1 → stdin.length < f2 →
      streamLoop W cont f1 k buf stdin = streamLoop W cont f2 k buf stdin := by
  intro f1
  induction f1 with
  | zero => intro f2 k buf stdin h; omega
  | succ f1 ih =>
    intro f2 k buf stdin h1 h2
    cases f2 with
    | zero => omega
    | succ f2 =>
      cases stdin with
      | nil => rw [streamLoop_eof, streamLoop_eof]
      | cons c s =>
        have hlt := readLine_rest_length (BUF_SIZE - 2) (c :: s) (by simp)
        have hf : fgets BUF_SIZE (c :: s) = some (readLine (BUF_SIZE - 2 + 1) (c :: s)) := rfl
        simp only [streamLoop, hf]
        rw [ih f2 (k + 1) _ _ (by omega) (by omega)]

/-- The forwarding loop sends the lines of the input one by one, up to and
including the first empty line, when every line fits the buffer, no byte is
NUL and no `send` fails. -/
theorem streamLoop_sends (W : World) (cont : List Nat → Run)
    (hcont : ∀ buf, sends (cont buf) = []) (hs : ∀ k, W.sendErr k = none) :
    ∀ (fuel k : Nat) (buf stdin : List Nat), stdin.length < fuel →
      (∀ l ∈ splitLines stdin, l.length < BUF_SIZE) → (∀ c ∈ stdin, c ≠ 0) →
      sends (streamLoop W cont fuel k buf stdin) = uptoEmptyLine (splitLines stdin) := by
  intro fuel
  induction fuel with
  | zero => intro k buf stdin h; omega
  | succ fuel ih =>
    intro k buf stdin hfuel hlines hnul
    cases hsp : splitLines stdin with
    | nil =>
      have : stdin = [] := (splitLines_nil_iff stdin).mp hsp
      subst this
      rw [streamLoop_eof, hcont]
      rfl
    | cons l ls =>
      have hl : l.length ≤ BUF_SIZE - 1 := by
        have := hlines l (by rw [hsp]; exact List.mem_cons_self l ls)
        omega
      obtain ⟨hr, hrest, htake, hne⟩ := readLine_splitLines stdin (BUF_SIZE - 1) l ls hsp hl
      have hstdin : stdin.isEmpty = false := by
        cases stdin with
        | nil => simp [splitLines] at hsp
        | cons c s => rfl
      have hf : fgets BUF_SIZE stdin = some (l, stdin.drop l.length) := by
        rw [fgets, hstdin, hr]; rfl
      have hlnul : ∀ c ∈ l, c ≠ 0 := by
        intro c hc
        rw [htake] at hc
        exact hnul c (List.mem_of_mem_take hc)
      rw [streamLoop_step W cont fuel k buf stdin l _ hf hlnul (hs k), sends_after]
      simp only [List.filterMap_cons, List.filterMap_nil, Event.sendData, List.singleton_append,
        uptoEmptyLine]
      by_cases hnl : l = [NL]
      · rw [if_pos hnl, if_pos hnl, hcont]
      · rw [if_neg hnl, if_neg hnl]
        have hlpos : 0 < l.length := List.length_pos.mpr hne
        have hle : l.length = min l.length stdin.length := by
          have := congrArg List.length htake
          rwa [List.length_take] at this
        have hlen2 : (stdin.drop l.length).length < fuel := by
          rw [List.length_drop]; omega
        have hlines2 : ∀ l2 ∈ splitLines (stdin.drop l.length), l2.length < BUF_SIZE := by
          intro l2 hl2
          rw [hrest] at hl2
          exact hlines l2 (by rw [hsp]; exact List.mem_cons_of_mem l hl2)
        have hnul2 : ∀ c ∈ stdin.drop l.length, c ≠ 0 :=
          fun c hc => hnul c (List.mem_of_mem_drop hc)
        rw [ih (k + 1) _ _ hlen2 hlines2 hnul2, hrest]

/-- The forwarding phase of `main` on inputs whose lines fit the buffer (at most
`BUF_SIZE - 1` bytes with the newline): once connected and with no failing
`send`, the bytes sent after the verb line are the input up to and including
its first empty line, the whole input when there is none. -/
theorem stream_forwards_request (P : Platform) (W : World) (argv : List (List Nat))
    (prog verb : List Nat) (rest : List (List Nat)) (hargv : argv = prog :: verb :: rest)
    (hconn : Event.connect true ∈ (main P W argv).events) (hs : ∀ k, W.sendErr k = none)
    (hlines : ∀ l ∈ splitLines W.stdin, l.length < BUF_SIZE) (hnul : ∀ c ∈ W.stdin, c ≠ 0) :
    streamed (main P W argv) = requestOf W.stdin := by
  unfold streamed requestOf
  rw [sends_main_of_connected P W argv prog verb rest hargv hconn]
  unfold exchange
  simp only [hs 0, sends_after, List.filterMap_cons, List.filterMap_nil, Event.sendData,
    List.singleton_append, List.tail_cons]
  rw [streamLoop_sends W _ (fun buf => sends_drainLoop _ _) hs _ _ _ _ (by omega) hlines hnul]

/-- The example of the specification for the forwarding phase: of the lines
`alpha`, `beta`, the empty line and `gamma`, the first three are sent after the
verb line and `gamma` is not. -/
theorem stream_example :
    sends (main linux64 { quietWorld with stdin := bytes "alpha\nbeta\n\ngamma\n" }
        [bytes "gcm", bytes "get"]) =
      [bytes "get\n", bytes "alpha\n", bytes "beta\n", bytes "\n"] := by
  decide

/-- The forwarding loop on a first line of `BUF_SIZE - 1` bytes followed by a
newline: the bytes are sent, then `fgets` returns the lone newline, which is
sent and taken for the empty line. -/
theorem streamLoop_full_buffer_line (W : World) (cont : List Nat → Run) (fuel : Nat)
    (buf a rest : List Nat) (hlen : a.length = BUF_SIZE - 1) (hnl : ∀ c ∈ a, c ≠ NL)
    (hnul : ∀ c ∈ a, c ≠ 0) (hs1 : W.sendErr 1 = none) (hs2 : W.sendErr 2 = none) :
    ∃ buf2, streamLoop W cont (fuel + 2) 1 buf (a ++ NL :: rest) =
      Run.after [Event.send a, Event.send [NL]] (cont buf2) := by
  have hne : a ≠ [] := by
    intro h
    rw [h] at hlen
    simp [BUF_SIZE] at hlen
  have hf1 : fgets BUF_SIZE (a ++ NL :: rest) = some (a, NL :: rest) := by
    obtain ⟨c, t, hct⟩ := List.exists_cons_of_ne_nil hne
    have : (a ++ NL :: rest).isEmpty = false := by rw [hct]; rfl
    rw [fgets, this, ← hlen, readLine_block a _ hnl]
    rfl
  have hf2 : fgets BUF_SIZE (NL :: rest) = some ([NL], rest) := rfl
  have hane : a ≠ [NL] := by
    intro h
    exact hnl NL (by rw [h]; exact List.mem_singleton_self NL) rfl
  refine ⟨poke (poke buf (a ++ [0])) ([NL] ++ [0]), ?_⟩
  rw [streamLoop_step W cont (fuel + 1) 1 buf _ a (NL :: rest) hf1 hnul hs1, if_neg hane,
    streamLoop_step W cont fuel 2 _ _ [NL] rest hf2 (by decide) hs2, if_pos rfl,
    Run.after_after]
  rfl

/-- The bytes `main` forwards when the first line of standard input has
`BUF_SIZE - 1` bytes before its newline: that line and nothing after it. -/
theorem streamed_full_buffer_line (P : Platform) (W : World) (prog verb : List Nat)
    (rest0 : List (List Nat)) (uid : Nat) (sockpath a rest : List Nat)
    (h1 : gcm_ruid P W = Except.ok uid) (h2 : gcm_sockpath W uid = Except.ok sockpath)
    (h3 : W.socketErr = none) (h4 : sockpath.length + 1 ≤ P.sunPathSize)
    (h5 : W.connectErr 0 = none) (hs : ∀ k, W.sendErr k = none)
    (hin : W.stdin = a ++ NL :: rest) (hlen : a.length = BUF_SIZE - 1)
    (hnl : ∀ c ∈ a, c ≠ NL) (hnul : ∀ c ∈ a, c ≠ 0) :
    streamed (main P W (prog :: verb :: rest0)) = a ++ [NL] := by
  have hfuel : W.stdin.length + 1 = (a.length + rest.length) + 2 := by
    rw [hin, List.length_append, List.length_cons]
    omega
  obtain ⟨buf2, hloop⟩ := streamLoop_full_buffer_line W
    (fun buf =>
      drainLoop { events := [Event.close], outcome := Outcome.exit 0 } W.recvs (memset0 buf))
    (a.length + rest.length)
    (memset0 (poke (bufInit W) ((cstr verb ++ bytes "\n").take (BUF_SIZE - 1) ++ [0])))
    a rest hlen hnl hnul (hs 1) (hs 2)
  have hex : sends (exchange W verb) =
      [cstr (poke (bufInit W) ((cstr verb ++ bytes "\n").take (BUF_SIZE - 1) ++ [0])), a, [NL]] := by
    unfold exchange
    simp only [hs 0, hfuel]
    rw [hin, hloop]
    simp only [sends_after, sends_drainLoop, List.filterMap_cons, List.filterMap_nil,
      Event.sendData, List.append_nil, List.singleton_append, List.cons_append, List.nil_append]
  have hpre : ((if (Option.map cstr W.gcmTrace == some (bytes "1")) = true
          then [Event.stderr (Diag.connecting sockpath)] else []) ++
          [Event.socket, Event.connect true]).filterMap Event.sendData = [] := by
    rw [sends_netOps, List.filter_append, filter_netOp_trace]
    rfl
  unfold streamed
  rw [main_connected P W prog verb rest0 uid sockpath h1 h2 h3 h4 h5, sends_after, hpre,
    List.nil_append, hex]
  simp

/-- Claim C1, failing input: a first line of 1023 bytes `a` and its newline,
then the line `gamma`.  The input has no empty line, so the request is the
whole input; `main` forwards the first line only, because the newline that
`fgets` returns alone after the 1023 bytes is taken for the empty line. -/
theorem stream_stops_after_full_buffer_line :
    requestOf (List.replicate 1023 97 ++ NL :: bytes "gamma\n") =
      List.replicate 1023 97 ++ NL :: bytes "gamma\n" ∧
    streamed (main linux64
        { quietWorld with stdin := List.replicate 1023 97 ++ NL :: bytes "gamma\n" }
        [bytes "gcm", bytes "get"]) = List.replicate 1023 97 ++ [NL] ∧
    List.replicate 1023 97 ++ [NL] ≠ List.replicate 1023 97 ++ NL :: bytes "gamma\n" := by
  have hnl : ∀ c ∈ List.replicate 1023 97, c ≠ NL := by
    intro c hc; rw [List.eq_of_mem_replicate hc]; decide
  have hnul : ∀ c ∈ List.replicate 1023 97, c ≠ 0 := by
    intro c hc; rw [List.eq_of_mem_replicate hc]; decide
  refine ⟨?_, ?_, ?_⟩
  · have hne : List.replicate 1023 97 ++ [NL] ≠ [NL] := by
      intro h
      have := congrArg List.length h
      rw [List.length_append, List.length_replicate] at this
      simp at this
    have hg : splitLines (bytes "gamma\n") = [bytes "gamma\n"] := by decide
    have hg2 : uptoEmptyLine [bytes "gamma\n"] = [bytes "gamma\n"] := by decide
    rw [requestOf, splitLines_line _ _ hnl, hg, uptoEmptyLine, if_neg hne, hg2]
    simp only [List.flatten_cons, List.flatten_nil, List.append_nil, List.append_assoc,
      List.singleton_append]
  · exact streamed_full_buffer_line linux64 _ (bytes "gcm") (bytes "get") [] 1000
      (bytes "/home/u/.gcm/.pipe") (List.replicate 1023 97) (bytes "gamma\n")
      (by decide) (by decide) rfl (by decide) rfl (fun _ => rfl) rfl
      (by rw [List.length_replicate]; rfl) hnl hnul
  · intro h
    have := congrArg List.length h
    simp only [List.length_append, List.length_replicate, List.length_cons,
      List.length_nil] at this
    have hg : (bytes "gamma\n").length = 6 := by decide
    omega

/-! ## C2: the receive loop -/

/-- The example of the specification for the receive loop: receives `"hello"`,
then a zero-length receive, write exactly `"hello"` and the process returns 0;
the later `" world"` is never received. -/
theorem drain_example :
    main linux64
        { quietWorld with
          recvs := [Except.ok (bytes "hello"), Except.ok [], Except.ok (bytes " world")] }
        [bytes "gcm", bytes "get"] =
      { events := [Event.socket, Event.connect true, Event.send (bytes "get\n"), Event.recv 5,
          Event.stdout (bytes "hello"), Event.recv 0, Event.close],
        outcome := Outcome.exit 0 } := by
  decide

/-- Claim C2, failing input: after the five-byte chunk `"hello"` the two-byte
chunk `"hi"` is written as `"hillo"`: `fputs` writes the buffer up to its first
NUL, which still holds the tail of the earlier chunk. -/
theorem drain_repeats_stale_bytes :
    main linux64
        { quietWorld with recvs := [Except.ok (bytes "hello"), Except.ok (bytes "hi")] }
        [bytes "gcm", bytes "get"] =
      { events := [Event.socket, Event.connect true, Event.send (bytes "get\n"), Event.recv 5,
          Event.stdout (bytes "hello"), Event.recv 2, Event.stdout (bytes "hillo"),
          Event.recv 0, Event.close],
        outcome := Outcome.exit 0 } ∧
    stdoutOf (main linux64
        { quietWorld with recvs := [Except.ok (bytes "hello"), Except.ok (bytes "hi")] }
        [bytes "gcm", bytes "get"]) ≠ bytes "hello" ++ bytes "hi" := by
  decide

/-! ## C3: the verb line -/

/-- Once connected, the first message `main` sends is the string `snprintf`
stored. -/
theorem main_sends_head_of_connected (P : Platform) (W : World) (argv : List (List Nat))
    (prog verb : List Nat) (rest : List (List Nat)) (hargv : argv = prog :: verb :: rest)
    (hconn : Event.connect true ∈ (main P W argv).events) :
    (sends (main P W argv)).head? = some ((cstr verb ++ bytes "\n").take (BUF_SIZE - 1)) := by
  rw [sends_main_of_connected P W argv prog verb rest hargv hconn, exchange_sends_head]

/-- Claim C3, as amended: once connected, the first message `main` sends is
`argv[1]` followed by a newline, cut to its first `sizeof(buf) - 1` bytes; for
an argument of at most `sizeof(buf) - 2` bytes that is exactly the argument
followed by a single newline. -/
theorem verb_line_first_message (P : Platform) (W : World) (argv : List (List Nat))
    (prog verb : List Nat) (rest : List (List Nat)) (hargv : argv = prog :: verb :: rest)
    (hnul : ∀ c ∈ verb, c ≠ 0)
    (hconn : Event.connect true ∈ (main P W argv).events) :
    (sends (main P W argv)).head? = some ((verb ++ bytes "\n").take (BUF_SIZE - 1)) ∧
    (verb.length ≤ BUF_SIZE - 2 →
      (sends (main P W argv)).head? = some (verb ++ bytes "\n")) := by
  have h := main_sends_head_of_connected P W argv prog verb rest hargv hconn
  rw [cstr_eq_self verb hnul] at h
  refine ⟨h, fun hlen => ?_⟩
  rw [h, List.take_of_length_le]
  rw [List.length_append, bytes_nl]
  simp only [List.length_singleton, BUF_SIZE] at hlen ⊢
  omega

theorem verb_line_first_message_witness :
    Event.connect true ∈ (main linux64 quietWorld [bytes "gcm", bytes "get"]).events ∧
    (sends (main linux64 quietWorld [bytes "gcm", bytes "get"])).head? =
      some (bytes "get\n") :=
  ⟨by decide,
    (verb_line_first_message linux64 quietWorld [bytes "gcm", bytes "get"] (bytes "gcm")
      (bytes "get") [] rfl (by decide) (by decide)).2 (by decide)⟩

/-- Claim C3, counterexample: for an argument of 1023 bytes the first message
is the argument without any newline. -/
theorem verb_line_truncated_counterexample :
    (sends (main linux64 quietWorld [bytes "gcm", List.replicate 1023 97])).head? =
        some (List.replicate 1023 97) ∧
    (sends (main linux64 quietWorld [bytes "gcm", List.replicate 1023 97])).head? ≠
        some (List.replicate 1023 97 ++ bytes "\n") := by
  have hm := main_connected linux64 quietWorld (bytes "gcm") (List.replicate 1023 97) [] 1000
    (bytes "/home/u/.gcm/.pipe") (by decide) (by decide) rfl (by decide) rfl
  have hv : cstr (List.replicate 1023 97) = List.replicate 1023 97 :=
    cstr_eq_self _ (by intro c hc; rw [List.eq_of_mem_replicate hc]; decide)
  have h : (sends (main linux64 quietWorld [bytes "gcm", List.replicate 1023 97])).head? =
      some (List.replicate 1023 97) := by
    rw [hm, sends_after, sends_netOps]
    have : ((if (Option.map cstr quietWorld.gcmTrace == some (bytes "1")) = true
          then [Event.stderr (Diag.connecting (bytes "/home/u/.gcm/.pipe"))] else []) ++
          [Event.socket, Event.connect true]).filter Event.isNetOp = [Event.connect true] := by
      decide
    rw [this]
    simp only [List.filterMap_cons, List.filterMap_nil, List.nil_append, exchange_sends_head, hv,
      Event.sendData]
    rw [List.take_left']
    rw [List.length_replicate]
    rfl
  refine ⟨h, ?_⟩
  rw [h]
  intro heq
  have hlen := congrArg (fun o => (o.getD []).length) heq
  simp only [Option.getD_some, List.length_append, List.length_replicate, bytes_nl,
    List.length_singleton] at hlen
  omega

/-! ## C4: connection establishment -/

theorem filter_isConnect_netOps (l : List Event) :
    l.filter Event.isConnect = (l.filter Event.isNetOp).filter Event.isConnect := by
  rw [List.filter_filter]
  congr 1
  funext e
  cases e <;> rfl

theorem filter_isFork_netOps (l : List Event) :
    l.filter Event.isFork = (l.filter Event.isNetOp).filter Event.isFork := by
  rw [List.filter_filter]
  congr 1
  funext e
  cases e <;> rfl

theorem fork_mem_netOps (l : List Event) :
    Event.fork ∈ l ↔ Event.fork ∈ l.filter Event.isNetOp := by
  simp [List.mem_filter, Event.isNetOp, Event.isFork]

theorem filter_isConnect_transfers (ts : List Event) (h : ∀ e ∈ ts, e.isTransfer = true) :
    ts.filter Event.isConnect = [] := by
  rw [List.filter_eq_nil_iff]
  intro e he
  have := h e he
  cases e <;> simp_all [Event.isTransfer, Event.isConnect]

theorem filter_isFork_transfers (ts : List Event) (h : ∀ e ∈ ts, e.isTransfer = true) :
    ts.filter Event.isFork = [] := by
  rw [List.filter_eq_nil_iff]
  intro e he
  have := h e he
  cases e <;> simp_all [Event.isTransfer, Event.isFork]

theorem fork_not_mem_transfers (ts : List Event) (h : ∀ e ∈ ts, e.isTransfer = true) :
    Event.fork ∉ ts := by
  intro he
  have := h _ he
  simp [Event.isTransfer] at this

/-- The `connect`, `fork`, `send` and `recv` calls of the exchange are all
`send` or `recv` calls. -/
theorem exchange_netOps (W : World) (verb : List Nat) :
    ∀ e ∈ (exchange W verb).events.filter Event.isNetOp, e.isTransfer = true := by
  intro e he
  rw [List.mem_filter] at he
  have h := exchange_events W verb (fun e => e.isConnect = false ∧ e.isFork = false)
    (fun _ => ⟨rfl, rfl⟩) (fun _ => ⟨rfl, rfl⟩) (fun _ => ⟨rfl, rfl⟩) (fun _ => ⟨rfl, rfl⟩)
    ⟨rfl, rfl⟩ e he.1
  have h2 := he.2
  simp only [Event.isNetOp, h.1, h.2, Bool.false_or] at h2
  exact h2

/-- Claim C4: in every run of `main` there are at most two calls of `connect`
and at most one of `fork`; `fork` is called exactly when the first `connect`
failed; the `fork` is then followed by exactly one more `connect`, and every
later network call is a `send` or a `recv`; when that second `connect` fails
too, no network call follows it and the process ends through
`die_errno("connect")`. -/
theorem main_connection_establishment (P : Platform) (W : World) (argv : List (List Nat)) :
    (main P W argv).events.countP Event.isConnect ≤ 2 ∧
    (main P W argv).events.countP Event.isFork ≤ 1 ∧
    (Event.fork ∈ (main P W argv).events ↔
      ((main P W argv).events.filter Event.isConnect).head? = some (Event.connect false)) ∧
    (Event.fork ∈ (main P W argv).events →
      ∃ ok ts, (main P W argv).events.filter Event.isNetOp =
          Event.connect false :: Event.fork :: Event.connect ok :: ts ∧
        (∀ e ∈ ts, e.isTransfer = true) ∧
        (ok = false → ts = [] ∧ ∃ errno : Nat,
          (main P W argv).outcome = Outcome.exit (errno : Int) ∧
          (main P W argv).events.getLast? =
            some (Event.stderr (Diag.fatalErrno "connect" errno)))) := by
  rw [List.countP_eq_length_filter, List.countP_eq_length_filter, filter_isConnect_netOps,
    filter_isFork_netOps, fork_mem_netOps]
  rcases main_cases P W argv with ⟨h, _⟩ | ⟨pre, prog, verb, rest, _, hm, hpre⟩ |
      ⟨pre, errno, _, hm, hpre⟩
  · rw [h]
    simp
  · have hts := exchange_netOps W verb
    have hops : (main P W argv).events.filter Event.isNetOp =
        pre.filter Event.isNetOp ++ (exchange W verb).events.filter Event.isNetOp := by
      rw [hm, Run.after_events, List.filter_append]
    rw [hops]
    have hc := filter_isConnect_transfers _ hts
    have hf := filter_isFork_transfers _ hts
    have hn := fork_not_mem_transfers _ hts
    rcases hpre with hpre | ⟨hpre, _⟩
    · rw [hpre]
      simp [List.filter_append, hc, hf, hn, Event.isConnect, Event.isFork, List.filter_cons]
    · rw [hpre]
      simp [List.filter_append, hc, hf, hn, Event.isConnect, Event.isFork, List.filter_cons]
      intro e he hne
      exact hts e (List.mem_filter.mpr ⟨he, hne⟩)
  · have hops : (main P W argv).events.filter Event.isNetOp =
        [Event.connect false, Event.fork, Event.connect false] := by
      rw [hm, Run.after_events, List.filter_append, hpre]
      rfl
    rw [hops]
    refine ⟨by decide, by decide, by decide, ?_⟩
    intro _
    refine ⟨false, [], rfl, by simp, fun _ => ⟨rfl, errno, ?_, ?_⟩⟩
    · rw [hm]; rfl
    · rw [hm]; simp [die_errno_events]

/-- The child process created by `fork` makes no network call of its own. -/
theorem forkChild_netOps (execErr : Option Nat) :
    (forkChild execErr).events.filter Event.isNetOp = [] := by
  cases execErr <;> rfl

/-- A run in which both calls of `connect` fail (with `ECONNREFUSED`, 111),
with tracing on. -/
theorem bootstrap_failure_example :
    main linux64
        { quietWorld with gcmTrace := some (bytes "1"), connectErr := fun _ => some 111 }
        [bytes "gcm", bytes "get"] =
      { events := [Event.stderr (Diag.connecting (bytes "/home/u/.gcm/.pipe")), Event.socket,
          Event.connect false, Event.stderr Diag.startingDaemon, Event.fork, Event.sleep 1,
          Event.connect false, Event.stderr (Diag.fatalErrno "connect" 111)],
        outcome := Outcome.exit 111 } := by
  decide

/-! ## C5: the usage error -/

/-- Claim C5, counterexample: as root without `SUDO_UID`, `main` without
argument ends in `gcm_ruid` with exit code 1, before the check of `argc`. -/
theorem usage_exit_code_counterexample :
    main linux64 { quietWorld with uid := 0 } [bytes "gcm"] =
      { events := [Event.stderr
          (Diag.fatal "was unable to read SUDO_UID and cannot run directly as root" 1)],
        outcome := Outcome.exit 1 } ∧
    (main linux64 { quietWorld with uid := 0 } [bytes "gcm"]).outcome ≠ Outcome.exit 127 := by
  decide

/-- Claim C5, as amended: without argument (`argc < 2`) `main` never calls
`socket`; when `gcm_ruid` and `gcm_sockpath` return, it writes the usage
message to standard error and exits with code 127; when one of them fails, the
run is that fatal exit. -/
theorem usage_after_identity (P : Platform) (W : World) (argv : List (List Nat))
    (hargc : argv.length < 2) :
    Event.socket ∉ (main P W argv).events ∧
    (∀ uid path, gcm_ruid P W = Except.ok uid → gcm_sockpath W uid = Except.ok path →
      main P W argv =
        { events := [Event.stderr (Diag.usage "client <command>")],
          outcome := Outcome.exit 127 }) ∧
    (∀ r, gcm_ruid P W = Except.error r → main P W argv = r) ∧
    (∀ uid r, gcm_ruid P W = Except.ok uid → gcm_sockpath W uid = Except.error r →
      main P W argv = r) := by
  have hcases : argv = [] ∨ ∃ a, argv = [a] := by
    match argv, hargc with
    | [], _ => exact Or.inl rfl
    | [a], _ => exact Or.inr ⟨a, rfl⟩
    | _ :: _ :: _, h => simp only [List.length_cons] at h; omega
  refine ⟨?_, ?_, ?_, ?_⟩
  · cases h1 : gcm_ruid P W with
    | error r =>
      obtain ⟨d, code, rfl, _⟩ := gcm_ruid_error_events P W r h1
      simp [main, h1]
    | ok uid =>
      cases h2 : gcm_sockpath W uid with
      | error r =>
        obtain ⟨d, code, rfl, _⟩ := gcm_sockpath_error_events W uid r h2
        simp [main, h1, h2]
      | ok path =>
        rcases hcases with rfl | ⟨a, rfl⟩ <;> simp [main, h1, h2, usage]
  · intro uid path h1 h2
    rcases hcases with rfl | ⟨a, rfl⟩ <;> simp [main, h1, h2, usage]
  · intro r h1
    simp [main, h1]
  · intro uid r h1 h2
    simp [main, h1, h2]

theorem usage_after_identity_witness :
    [bytes "gcm"].length < 2 ∧
    main linux64 quietWorld [bytes "gcm"] =
      { events := [Event.stderr (Diag.usage "client <command>")],
        outcome := Outcome.exit 127 } :=
  ⟨by decide,
    (usage_after_identity linux64 quietWorld [bytes "gcm"] (by decide)).2.1 1000
      (bytes "/home/u/.gcm/.pipe") (by decide) (by decide)⟩

/-! ## C6: the exit status after a failing `recv` -/

/-- Claim C6, failing input: a `recv` that fails (here with `ECONNRESET`, 104)
ends the loop like the end of the stream, and `main` returns 0, not the
`errno` of the failure. -/
theorem recv_failure_exits_zero :
    main linux64 { quietWorld with recvs := [Except.error 104] } [bytes "gcm", bytes "get"] =
      { events := [Event.socket, Event.connect true, Event.send (bytes "get\n"),
          Event.recv (-1), Event.close],
        outcome := Outcome.exit 0 } ∧
    (main linux64 { quietWorld with recvs := [Except.error 104] }
        [bytes "gcm", bytes "get"]).outcome ≠ Outcome.exit 104 := by
  decide

/-! ## C7: validation of `SUDO_UID` -/

theorem digit_not_space (c : Nat) (h : isdigit c = true) :
    isspace c = false ∧ c ≠ 43 ∧ c ≠ 45 := by
  simp only [isdigit, Bool.and_eq_true, decide_eq_true_eq] at h
  refine ⟨?_, by omega, by omega⟩
  simp only [isspace, Bool.or_eq_false_iff, Bool.and_eq_false_iff, beq_eq_false_iff_ne,
    decide_eq_false_iff_not]
  omega

theorem strtolSigned_plain (P : Platform) (k d : Nat) (t : List Nat) (h43 : d ≠ 43)
    (h45 : d ≠ 45) :
    strtolSigned P k (d :: t) = strtolDigits P k false ((d :: t).takeWhile isdigit) := by
  unfold strtolSigned
  split
  · next heq => injection heq with h _; exact absurd h h45
  · next heq => injection heq with h _; exact absurd h h43
  · rfl

/-- What `strtol` yields on white space, an optional sign, and then a byte
sequence `body` that does not start with white space nor, after no sign, with
a sign: the conversion of the leading digits of `body`. -/
theorem strtol_decompose (P : Platform) (ws sg body : List Nat)
    (hws : ∀ c ∈ ws, isspace c = true) (hsg : sg = [] ∨ sg = [43] ∨ sg = [45])
    (hbody : sg = [] → ∀ c, body.head? = some c → isspace c = false ∧ c ≠ 43 ∧ c ≠ 45) :
    strtol P (ws ++ sg ++ body) =
      strtolDigits P (ws.length + sg.length) (decide (sg = [45])) (body.takeWhile isdigit) := by
  unfold strtol
  rcases hsg with rfl | rfl | rfl
  · have hsp := takeWhile_append_stop isspace ws body hws (fun c hc => (hbody rfl c hc).1)
    rw [List.append_nil, hsp.1, hsp.2]
    cases body with
    | nil => rfl
    | cons d t =>
      have hd := hbody rfl d rfl
      rw [strtolSigned_plain P _ d t hd.2.1 hd.2.2]
      rfl
  · have hsp := takeWhile_append_stop isspace ws ([43] ++ body) hws
      (by intro c hc; simp only [List.singleton_append, List.head?_cons, Option.some.injEq] at hc
          subst hc; decide)
    rw [List.append_assoc, hsp.1, hsp.2]
    rfl
  · have hsp := takeWhile_append_stop isspace ws ([45] ++ body) hws
      (by intro c hc; simp only [List.singleton_append, List.head?_cons, Option.some.injEq] at hc
          subst hc; decide)
    rw [List.append_assoc, hsp.1, hsp.2]
    rfl

theorem gcm_ruid_root (P : Platform) (W : World) (s : List Nat) (huid : W.uid = 0)
    (hs : W.sudoUid = some s) :
    gcm_ruid P W =
      if (strtol P s).consumed = 0 ∨ toULong P (toUid P (strtol P s).value) = ULONG_MAX P ∨
          (strtol P s).errnoSet.getD 0 = P.ERANGE then
        Except.error (die_errno "was unable to parse SUDO_UID as an integer"
          ((strtol P s).errnoSet.getD 0))
      else Except.ok (toUid P (strtol P s).value) := by
  simp only [gcm_ruid, huid, hs, if_true]

/-- Claim C7, counterexample: as root, `SUDO_UID` values with trailing
characters, leading white space, a minus sign, or a value beyond `uid_t` are
all accepted, and an identifier is returned. -/
theorem sudo_uid_lenient_counterexample :
    gcm_ruid linux64 { quietWorld with uid := 0, sudoUid := some (bytes "1000abc") } =
      Except.ok 1000 ∧
    gcm_ruid linux64 { quietWorld with uid := 0, sudoUid := some (bytes " 42") } =
      Except.ok 42 ∧
    gcm_ruid linux64 { quietWorld with uid := 0, sudoUid := some (bytes "-5") } =
      Except.ok 4294967291 ∧
    gcm_ruid linux64 { quietWorld with uid := 0, sudoUid := some (bytes "4294967296") } =
      Except.ok 0 := by
  decide

/-- Claim C7, as amended: as root, `gcm_ruid` ends the process with a fatal
diagnostic when `SUDO_UID` is absent, when no decimal digit follows its
optional leading white space and optional sign, and when the number written
there lies outside the range of `long`. -/
theorem gcm_ruid_rejects (P : Platform) (W : World) (huid : W.uid = 0) :
    (W.sudoUid = none →
      gcm_ruid P W =
        Except.error (die "was unable to read SUDO_UID and cannot run directly as root")) ∧
    (∀ ws sg rest : List Nat, W.sudoUid = some (ws ++ sg ++ rest) →
      (∀ c ∈ ws, isspace c = true) → (sg = [] ∨ sg = [43] ∨ sg = [45]) →
      (∀ c, rest.head? = some c → isdigit c = false) →
      (sg = [] → ∀ c, rest.head? = some c → isspace c = false ∧ c ≠ 43 ∧ c ≠ 45) →
      gcm_ruid P W =
        Except.error (die_errno "was unable to parse SUDO_UID as an integer"
          (P.noConvErrno.getD 0))) ∧
    (∀ ws sg ds rest : List Nat, W.sudoUid = some (ws ++ sg ++ (ds ++ rest)) →
      (∀ c ∈ ws, isspace c = true) → (sg = [] ∨ sg = [43] ∨ sg = [45]) →
      (∀ c ∈ ds, isdigit c = true) → ds ≠ [] →
      (∀ c, rest.head? = some c → isdigit c = false) →
      ((sg ≠ [45] ∧ LONG_MAX P < (digitsValue ds : Int)) ∨
        (sg = [45] ∧ -(digitsValue ds : Int) < LONG_MIN P)) →
      gcm_ruid P W =
        Except.error (die_errno "was unable to parse SUDO_UID as an integer" P.ERANGE)) := by
  refine ⟨?_, ?_, ?_⟩
  · intro hs
    simp only [gcm_ruid, huid, hs, if_true]
  · intro ws sg rest hs hws hsg hrest hrest2
    have htw : rest.takeWhile isdigit = [] := by
      cases rest with
      | nil => rfl
      | cons c t => simp [List.takeWhile_cons, hrest c rfl]
    have hst := strtol_decompose P ws sg rest hws hsg hrest2
    rw [htw] at hst
    rw [gcm_ruid_root P W _ huid hs, hst]
    simp [strtolDigits]
  · intro ws sg ds rest hs hws hsg hds hne hrest hover
    have htw := (takeWhile_append_stop isdigit ds rest hds hrest).1
    obtain ⟨d, ds', hd⟩ := List.exists_cons_of_ne_nil hne
    have hbody : sg = [] → ∀ c, (ds ++ rest).head? = some c →
        isspace c = false ∧ c ≠ 43 ∧ c ≠ 45 := by
      intro _ c hc
      rw [hd] at hc
      simp only [List.cons_append, List.head?_cons, Option.some.injEq] at hc
      subst hc
      exact digit_not_space d (hds d (by rw [hd]; exact List.mem_cons_self d ds'))
    have hst := strtol_decompose P ws sg (ds ++ rest) hws hsg hbody
    rw [htw] at hst
    have hemp : ds.isEmpty = false := by rw [hd]; rfl
    have hres : (strtol P (ws ++ sg ++ (ds ++ rest))).errnoSet = some P.ERANGE := by
      rw [hst]
      rcases hover with ⟨hsgn, hv⟩ | ⟨hsgn, hv⟩
      · simp [strtolDigits, hemp, hsgn, hv]
      · have hle : ¬ LONG_MAX P < -(digitsValue ds : Int) := by
          have : LONG_MIN P ≤ LONG_MAX P := by
            unfold LONG_MIN LONG_MAX
            have : (0 : Int) < 2 ^ (P.longBits - 1) := by positivity
            omega
          omega
        simp [strtolDigits, hemp, hsgn, hv, hle]
    rw [gcm_ruid_root P W _ huid hs, hres]
    simp

theorem gcm_ruid_rejects_witness :
    gcm_ruid linux64 { quietWorld with uid := 0 } =
      Except.error (die "was unable to read SUDO_UID and cannot run directly as root") ∧
    gcm_ruid linux64 { quietWorld with uid := 0, sudoUid := some (bytes " -x1") } =
      Except.error (die_errno "was unable to parse SUDO_UID as an integer" 0) ∧
    gcm_ruid linux64
        { quietWorld with uid := 0, sudoUid := some (bytes "9223372036854775808") } =
      Except.error (die_errno "was unable to parse SUDO_UID as an integer" 34) :=
  ⟨(gcm_ruid_rejects linux64 { quietWorld with uid := 0 } rfl).1 rfl,
    (gcm_ruid_rejects linux64 { quietWorld with uid := 0, sudoUid := some (bytes " -x1") }
      rfl).2.1 [32] [45] (bytes "x1") rfl (by decide) (by decide)
      (fun c hc => Option.some.inj hc ▸ rfl) (fun h => absurd h (by decide)),
    (gcm_ruid_rejects linux64
      { quietWorld with uid := 0, sudoUid := some (bytes "9223372036854775808") }
      rfl).2.2 [] [] (bytes "9223372036854775808") [] rfl (by decide) (by decide) (by decide)
      (by decide) (fun c hc => nomatch hc) (Or.inl ⟨by decide, by decide⟩)⟩

/-! ## C8: identity resolution -/

theorem decimal_ne_nil (n : Nat) : decimal n ≠ [] := by
  unfold decimal
  split
  · simp
  · next h =>
    intro hnil
    simp only [List.map_eq_nil_iff, List.reverse_eq_nil_iff] at hnil
    exact h (Nat.digits_eq_nil_iff_eq_zero.mp hnil)

theorem decimal_isdigit (n : Nat) : ∀ c ∈ decimal n, isdigit c = true := by
  intro c hc
  unfold decimal at hc
  split at hc
  · simp only [List.mem_singleton] at hc
    subst hc; decide
  · simp only [List.mem_map, List.mem_reverse] at hc
    obtain ⟨d, hd, rfl⟩ := hc
    have hlt : d < 10 := Nat.digits_lt_base (by decide) hd
    simp only [isdigit, Bool.and_eq_true, decide_eq_true_eq]
    omega

theorem digitsValue_append_digit (l : List Nat) (d : Nat) :
    digitsValue (l ++ [d + 48]) = digitsValue l * 10 + d := by
  simp [digitsValue, List.foldl_append]

theorem digitsValue_reverse (l : List Nat) :
    digitsValue (l.reverse.map (fun d => d + 48)) = Nat.ofDigits 10 l := by
  induction l with
  | nil => rfl
  | cons d l ih =>
    rw [List.reverse_cons, List.map_append, List.map_singleton, digitsValue_append_digit, ih,
      Nat.ofDigits_cons]
    omega

theorem digitsValue_decimal (n : Nat) : digitsValue (decimal n) = n := by
  unfold decimal
  split
  · next h => subst h; rfl
  · rw [digitsValue_reverse, Nat.ofDigits_digits]

theorem strtol_decimal (P : Platform) (n : Nat) (hn : (n : Int) ≤ LONG_MAX P) :
    strtol P (decimal n) =
      { value := n, consumed := (decimal n).length, errnoSet := none } := by
  obtain ⟨d, ds, hd⟩ := List.exists_cons_of_ne_nil (decimal_ne_nil n)
  have hbody : ([] : List Nat) = [] → ∀ c, (decimal n).head? = some c →
      isspace c = false ∧ c ≠ 43 ∧ c ≠ 45 := by
    intro _ c hc
    rw [hd] at hc
    simp only [List.head?_cons, Option.some.injEq] at hc
    subst hc
    exact digit_not_space d (decimal_isdigit n d (by rw [hd]; exact List.mem_cons_self d ds))
  have hst := strtol_decompose P [] [] (decimal n) (by simp) (Or.inl rfl) hbody
  have htw : (decimal n).takeWhile isdigit = decimal n := by
    rw [List.takeWhile_eq_self_iff]
    exact decimal_isdigit n
  have hemp : (decimal n).isEmpty = false := by rw [hd]; rfl
  have hmin : ¬ (n : Int) < LONG_MIN P := by
    unfold LONG_MIN
    have : (0 : Int) < 2 ^ (P.longBits - 1) := by positivity
    omega
  simp only [List.nil_append, List.append_nil] at hst
  rw [hst, htw]
  simp [strtolDigits, hemp, digitsValue_decimal, not_lt.mpr hn, hmin]

theorem decimal_1000 : decimal 1000 = bytes "1000" := by
  simp [decimal]
  decide

/-- Claim C8: where `long` is wider than `uid_t`, as root with `SUDO_UID` the
decimal representation of a number `n` in the range of `uid_t`, `gcm_ruid`
returns `n`, and the socket path `gcm_sockpath` builds for it is that of the
home directory of user `n`; when not root, `gcm_ruid` returns the user
identifier of the process, whatever `SUDO_UID` holds. -/
theorem gcm_ruid_identity (P : Platform) (W : World) (hP : P.uidBits < P.longBits)
    (hE : P.ERANGE ≠ 0) :
    (W.uid = 0 → ∀ n, n < 2 ^ P.uidBits → W.sudoUid = some (decimal n) →
      gcm_ruid P W = Except.ok n ∧
      ∀ home, W.passwd n = some (some home) → (∀ c ∈ home, c ≠ 0) → W.mallocOk = true →
        gcm_sockpath W n = Except.ok (home ++ bytes "/.gcm/.pipe")) ∧
    (W.uid ≠ 0 → gcm_ruid P W = Except.ok W.uid) := by
  refine ⟨?_, ?_⟩
  · intro huid n hn hs
    refine ⟨?_, ?_⟩
    · have hpow : 2 ^ P.uidBits ≤ 2 ^ (P.longBits - 1) :=
        Nat.pow_le_pow_right (by decide) (by omega)
      have hlong : 2 ^ P.longBits = 2 * 2 ^ (P.longBits - 1) := by
        have : P.longBits = (P.longBits - 1) + 1 := by omega
        rw [this, Nat.pow_succ]
        simp
        ring
      have hmax : (n : Int) ≤ LONG_MAX P := by
        unfold LONG_MAX
        have : (n : Int) < 2 ^ (P.longBits - 1) := by exact_mod_cast lt_of_lt_of_le hn hpow
        omega
      have huidn : toUid P (n : Int) = n := by
        unfold toUid
        have : ((n : Int) % (2 ^ P.uidBits : Int)) = (n : Int) := by
          apply Int.emod_eq_of_lt (by positivity)
          exact_mod_cast hn
        rw [this]
        simp
      have hul : toULong P n ≠ ULONG_MAX P := by
        unfold toULong ULONG_MAX
        rw [Nat.mod_eq_of_lt (by omega)]
        have : 0 < 2 ^ (P.longBits - 1) := by positivity
        omega
      have hlen : (decimal n).length ≠ 0 := by
        intro h
        exact decimal_ne_nil n (List.length_eq_zero.mp h)
      rw [gcm_ruid_root P W _ huid hs, strtol_decimal P n hmax]
      simp [huidn, hul, hlen, Ne.symm hE]
    · intro home hpw hnul hm
      simp only [gcm_sockpath, hpw, hm, if_true, cstr_eq_self home hnul, List.append_assoc]
      rfl
  · intro huid
    simp [gcm_ruid, huid]

theorem gcm_ruid_identity_witness :
    linux64.uidBits < linux64.longBits ∧ linux64.ERANGE ≠ 0 ∧
    gcm_ruid linux64 { quietWorld with uid := 0, sudoUid := some (bytes "1000") } =
      Except.ok 1000 ∧
    gcm_sockpath { quietWorld with uid := 0, sudoUid := some (bytes "1000") } 1000 =
      Except.ok (bytes "/home/u" ++ bytes "/.gcm/.pipe") ∧
    gcm_ruid linux64 { quietWorld with sudoUid := some (bytes "0") } = Except.ok 1000 :=
  ⟨by decide, by decide,
    ((gcm_ruid_identity linux64 { quietWorld with uid := 0, sudoUid := some (bytes "1000") }
      (by decide) (by decide)).1 rfl 1000 (by decide) (congrArg some decimal_1000.symm)).1,
    ((gcm_ruid_identity linux64 { quietWorld with uid := 0, sudoUid := some (bytes "1000") }
      (by decide) (by decide)).1 rfl 1000 (by decide) (congrArg some decimal_1000.symm)).2
      (bytes "/home/u") rfl (by decide) rfl,
    (gcm_ruid_identity linux64 { quietWorld with sudoUid := some (bytes "0") }
      (by decide) (by decide)).2 (by decide)⟩

/-! ## C9: the length of the socket path -/

/-- Claim C9, failing input: with a home directory of 98 bytes the socket path
and its terminator take 110 bytes, more than the 108 of `sun_path`; `main`
opens the socket and `strcpy` writes past the array, where a fatal exit was
required. -/
theorem long_sockpath_overruns_sun_path :
    gcm_sockpath { quietWorld with passwd := fun _ => some (some (47 :: List.replicate 97 97)) }
        1000 = Except.ok (47 :: List.replicate 97 97 ++ bytes "/.gcm/.pipe") ∧
    linux64.sunPathSize < (47 :: List.replicate 97 97 ++ bytes "/.gcm/.pipe").length + 1 ∧
    main linux64 { quietWorld with passwd := fun _ => some (some (47 :: List.replicate 97 97)) }
        [bytes "gcm", bytes "get"] =
      { events := [Event.socket], outcome := Outcome.undefined } := by
  decide

/-! ## C10: the exit status of fatal exits -/

/-- Claim C10, failing input: as root with `SUDO_UID=abc`, `strtol` converts
nothing and leaves `errno` at 0, so `die_errno` prints its fatal diagnostic and
calls `exit(0)`. -/
theorem fatal_parse_failure_exits_zero :
    main linux64 { quietWorld with uid := 0, sudoUid := some (bytes "abc") }
        [bytes "gcm", bytes "get"] =
      { events := [Event.stderr
          (Diag.fatalErrno "was unable to parse SUDO_UID as an integer" 0)],
        outcome := Outcome.exit 0 } ∧
    exitStatus 0 = 0 := by
  decide

end GCM
